import Mathlib

/-!
Verification development for the rapina embedded HTTP server core.

The route table, specificity sort and matcher live in `router.rs`, which is
not among the provided sources (only its tests in `tests/routing.rs` and its
callers are); those definitions are modelled from the specification, §4.1
and §6.  Everything else (`server.rs`, `state.rs`, `app.rs`,
`middleware/cors.rs`) is embedded directly from the source.
-/

namespace Rapina

/-- HTTP methods as used by the routing tests and the CORS middleware. -/
inductive HttpMethod
  | GET
  | POST
  | PUT
  | PATCH
  | DELETE
  | OPTIONS
  deriving DecidableEq, Repr

/-- Modelled from the spec: `PathSegment` is a tagged variant
`Static(literal)` or `Param(name)` (§3); the implementing `router.rs` is not
among the provided sources. -/
inductive PathSegment
  | static (lit : String)
  | param (name : String)
  deriving DecidableEq, Repr

/-- Whether a segment is a static literal. -/
def PathSegment.isStatic : PathSegment → Bool
  | .static _ => true
  | .param _ => false

/-- Modelled from the spec: pattern syntax is `/`-separated segments; a
segment prefixed with `:` is a named parameter, all other segments are
literal (§6). -/
def parseSegment (s : String) : PathSegment :=
  match s.data with
  | ':' :: rest => .param (String.mk rest)
  | _ => .static s

/-- Splitting a character list on `/`, keeping empty segments (the
character-level body of `splitPath`). -/
def splitOnSlash : List Char → List (List Char)
  | [] => [[]]
  | c :: cs =>
    let rest := splitOnSlash cs
    if c = '/' then [] :: rest
    else
      match rest with
      | [] => [[c]]
      | seg :: segs => (c :: seg) :: segs

/-- Modelled from the spec: a path is split into `/`-separated segments
(§4.1 "split the path into segments"). -/
def splitPath (p : String) : List String :=
  (splitOnSlash p.data).map (fun cs => String.mk cs)

/-- Modelled from the spec: a route path string parses into an ordered
sequence of segment kinds (§2 "Path Pattern"). -/
def parsePattern (p : String) : List PathSegment := (splitPath p).map parseSegment

/-- Modelled from the spec: a registered route is a
`(method, segments, handler, optional name)` tuple (§3 "Route"); the opaque
handler is identified by a number. -/
structure Route where
  method : HttpMethod
  segments : List PathSegment
  handler : Nat
  name : Option String := none
  deriving DecidableEq, Repr

/-- Modelled from the spec: the specificity comparator of §4.1 — two routes
are compared segment-by-segment, left to right; at the first position where
the segment kinds differ, `Static` sorts before `Param`; a strict prefix
sorts first as a fallback; fully equal kind-sequences compare equal (ties
are then resolved by the stable sort, i.e. registration order). -/
def specCompare : List PathSegment → List PathSegment → Ordering
  | [], [] => .eq
  | [], _ :: _ => .lt
  | _ :: _, [] => .gt
  | a :: as, b :: bs =>
    match a.isStatic, b.isStatic with
    | true, false => .lt
    | false, true => .gt
    | _, _ => specCompare as bs

/-- Modelled from the spec: stable insertion of a route into a list sorted
by descending specificity — the new route goes before the first strictly
less specific entry, so equally specific routes keep registration order. -/
def insertBySpec (r : Route) : List Route → List Route
  | [] => [r]
  | s :: rest =>
    if specCompare r.segments s.segments = .lt then r :: s :: rest
    else s :: insertBySpec r rest

/-- Modelled from the spec: `prepare()` stably sorts a method's route list
by specificity (§4.1). -/
def sortBySpec : List Route → List Route
  | [] => []
  | r :: rest => insertBySpec r (sortBySpec rest)

/-- Modelled from the spec: matching one candidate route against the path
segments (§4.1) — requires exact segment-count equality; a `Static` segment
must equal the literal case-sensitively; a `Param` segment always matches
and captures the literal under its name. -/
def matchSegments : List PathSegment → List String → Option (List (String × String))
  | [], [] => some []
  | .static lit :: rest, p :: ps =>
    if lit = p then matchSegments rest ps else none
  | .param n :: rest, p :: ps =>
    (matchSegments rest ps).map (fun caps => (n, p) :: caps)
  | _, _ => none

/-- Modelled from the spec: the route table maps a method to its ordered
route list (§3 "RouteTable"); after `prepare()` the list for a method is
its registrations, filtered by method, sorted by specificity. -/
def routesFor (table : List Route) (m : HttpMethod) : List Route :=
  sortBySpec (table.filter (fun r => decide (r.method = m)))

/-- Modelled from the spec: scan the ordered route list and return the
first candidate that fully matches, with its captured parameters (§4.1). -/
def matchFirst : List Route → List String → Option (Nat × List (String × String))
  | [], _ => none
  | r :: rest, parts =>
    match matchSegments r.segments parts with
    | some caps => some (r.handler, caps)
    | none => matchFirst rest parts

/-- Modelled from the spec: `match(method, path)` returns the selected
handler and captured parameters, or `NotFound` (here `none`) when no route
of that method matches (§2, §4.1). -/
def routerMatch (table : List Route) (m : HttpMethod) (path : List String) :
    Option (Nat × List (String × String)) :=
  matchFirst (routesFor table m) path

/-- `staticBeatsAt a b` holds when, at the first position where the segment
kinds of `a` and `b` differ, `a` has the `Static` segment. -/
def staticBeatsAt : List PathSegment → List PathSegment → Bool
  | a :: as, b :: bs =>
    match a.isStatic, b.isStatic with
    | true, false => true
    | false, true => false
    | _, _ => staticBeatsAt as bs
  | _, _ => false

theorem specCompare_of_staticBeats :
    ∀ (a b : List PathSegment), staticBeatsAt a b = true →
      specCompare a b = Ordering.lt ∧ specCompare b a = Ordering.gt := by
  intro a
  induction a with
  | nil => intro b h; simp [staticBeatsAt] at h
  | cons x xs ih =>
    intro b h
    cases b with
    | nil => simp [staticBeatsAt] at h
    | cons y ys =>
      unfold staticBeatsAt at h
      unfold specCompare
      cases hx : x.isStatic <;> cases hy : y.isStatic <;> simp [hx, hy] at h ⊢
      · exact ih ys h
      · exact ih ys h

/-- C1: in a route table holding, under one method, a static route and a
parameterized route whose kinds first differ at a position where the
static route has the `Static` segment, matching a path that the static
route accepts selects the static route under either registration order. -/
theorem static_route_wins_any_registration_order
    (m : HttpMethod) (a b : List PathSegment) (ka kb : Nat)
    (path : List String) (caps : List (String × String))
    (hkind : staticBeatsAt a b = true)
    (hmatch : matchSegments a path = some caps) :
    routerMatch [⟨m, a, ka, none⟩, ⟨m, b, kb, none⟩] m path = some (ka, caps) ∧
    routerMatch [⟨m, b, kb, none⟩, ⟨m, a, ka, none⟩] m path = some (ka, caps) := by
  obtain ⟨hlt, hgt⟩ := specCompare_of_staticBeats a b hkind
  constructor
  · simp [routerMatch, routesFor, sortBySpec, insertBySpec, hlt, matchFirst, hmatch]
  · simp [routerMatch, routesFor, sortBySpec, insertBySpec, hgt, matchFirst, hmatch]

/-- Witness for C1: registering `/users/:id` before `/users/current` still
resolves `/users/current` to the static route, and `/users/42` to the
parameterized one. -/
theorem static_route_wins_any_registration_order_witness :
    staticBeatsAt (parsePattern "/users/current") (parsePattern "/users/:id") = true ∧
    routerMatch
      [⟨.GET, parsePattern "/users/:id", 0, none⟩,
       ⟨.GET, parsePattern "/users/current", 1, none⟩]
      .GET (splitPath "/users/current") = some (1, []) ∧
    routerMatch
      [⟨.GET, parsePattern "/users/:id", 0, none⟩,
       ⟨.GET, parsePattern "/users/current", 1, none⟩]
      .GET (splitPath "/users/42") = some (0, [("id", "42")]) :=
  ⟨by decide,
   (static_route_wins_any_registration_order .GET
      (parsePattern "/users/current") (parsePattern "/users/:id") 1 0
      (splitPath "/users/current") [] (by decide) (by decide)).2,
   by decide⟩

/-- C2: specificity is positional — with `/api/:version/users` and
`/api/v1/:resource` registered under GET (in either order), the path
`/api/v1/users` resolves to `/api/v1/:resource` and `/api/v2/users`
resolves to `/api/:version/users`. -/
theorem positional_specificity :
    routerMatch
      [⟨.GET, parsePattern "/api/:version/users", 0, none⟩,
       ⟨.GET, parsePattern "/api/v1/:resource", 1, none⟩]
      .GET (splitPath "/api/v1/users") = some (1, [("resource", "users")]) ∧
    routerMatch
      [⟨.GET, parsePattern "/api/v1/:resource", 1, none⟩,
       ⟨.GET, parsePattern "/api/:version/users", 0, none⟩]
      .GET (splitPath "/api/v1/users") = some (1, [("resource", "users")]) ∧
    routerMatch
      [⟨.GET, parsePattern "/api/:version/users", 0, none⟩,
       ⟨.GET, parsePattern "/api/v1/:resource", 1, none⟩]
      .GET (splitPath "/api/v2/users") = some (0, [("version", "v2")]) ∧
    routerMatch
      [⟨.GET, parsePattern "/api/v1/:resource", 1, none⟩,
       ⟨.GET, parsePattern "/api/:version/users", 0, none⟩]
      .GET (splitPath "/api/v2/users") = some (0, [("version", "v2")]) :=
  ⟨by decide, by decide, by decide, by decide⟩

/-- C5: a path registered only under other methods yields `NotFound`
(`none`), and matching for a method depends only on that method's routes,
so registrations (and sorting) under other methods cannot affect it. -/
theorem method_mismatch_is_not_found (m : HttpMethod) (path : List String) :
    (∀ table : List Route, (∀ r ∈ table, r.method ≠ m) →
       routerMatch table m path = none) ∧
    (∀ t1 t2 : List Route,
       t1.filter (fun r => decide (r.method = m)) =
         t2.filter (fun r => decide (r.method = m)) →
       routerMatch t1 m path = routerMatch t2 m path) := by
  constructor
  · intro table h
    have hnil : table.filter (fun r => decide (r.method = m)) = [] := by
      rw [List.filter_eq_nil_iff]
      intro r hr
      simp [h r hr]
    simp [routerMatch, routesFor, hnil, sortBySpec, matchFirst]
  · intro t1 t2 hf
    simp only [routerMatch, routesFor, hf]

/-- Witness for C5: `POST /resource` is `NotFound` when only `GET
/resource` is registered; and with `GET /users/:id` plus `POST
/users/current`, each method matches independently. -/
theorem method_mismatch_is_not_found_witness :
    routerMatch [⟨.GET, parsePattern "/resource", 0, none⟩]
      .POST (splitPath "/resource") = none ∧
    routerMatch
      [⟨.GET, parsePattern "/users/:id", 0, none⟩,
       ⟨.POST, parsePattern "/users/current", 1, none⟩]
      .GET (splitPath "/users/current") = some (0, [("id", "current")]) ∧
    routerMatch
      [⟨.GET, parsePattern "/users/:id", 0, none⟩,
       ⟨.POST, parsePattern "/users/current", 1, none⟩]
      .POST (splitPath "/users/current") = some (1, []) :=
  ⟨(method_mismatch_is_not_found .POST (splitPath "/resource")).1 _ (by decide),
   by decide, by decide⟩

/-! ## Application state container (`state.rs`) -/

/-- Models `std::any::TypeId`, the key of the state map. -/
abbrev TypeId := Nat

/-- `HashMap::insert` on the state map (`state.rs`, `AppState::with`): an
existing entry for the key is replaced, otherwise the pair is added. -/
def mapInsert {V : Type} : List (TypeId × V) → TypeId → V → List (TypeId × V)
  | [], k, v => [(k, v)]
  | (k', v') :: rest, k, v =>
    if k' = k then (k, v) :: rest else (k', v') :: mapInsert rest k v

/-- `HashMap::get` on the state map (`state.rs`, `AppState::get`). -/
def mapGet {V : Type} : List (TypeId × V) → TypeId → Option V
  | [], _ => none
  | (k', v') :: rest, k => if k' = k then some v' else mapGet rest k

/-- `AppState` from `state.rs`: a map from a type identity to the stored
value of that type, embedded as an association list with unique keys.  The
type-erased `Arc<dyn Any + Send + Sync>` payload is modelled by a value
type `V`; the `downcast_ref` in `get` always succeeds on a hit because
`with` stores a value of exactly the keying type. -/
structure AppState (V : Type) where
  inner : List (TypeId × V)
  deriving DecidableEq, Repr

/-- `AppState::new` from `state.rs`. -/
def AppState.new (V : Type) : AppState V := ⟨[]⟩

/-- `AppState::with` from `state.rs` (`with` is a Lean keyword, hence the
name `withValue`): inserts a value keyed by its type identity. -/
def AppState.withValue {V : Type} (s : AppState V) (k : TypeId) (v : V) : AppState V :=
  ⟨mapInsert s.inner k v⟩

/-- `AppState::get` from `state.rs`. -/
def AppState.get {V : Type} (s : AppState V) (k : TypeId) : Option V :=
  mapGet s.inner k

theorem mapGet_mapInsert_self {V : Type} (l : List (TypeId × V)) (k : TypeId) (v : V) :
    mapGet (mapInsert l k v) k = some v := by
  induction l with
  | nil => simp [mapInsert, mapGet]
  | cons p rest ih =>
    obtain ⟨k', v'⟩ := p
    by_cases h : k' = k
    · simp [mapInsert, mapGet, h]
    · simp [mapInsert, mapGet, h, ih]

theorem mapGet_eq_none_of_not_mem {V : Type} (l : List (TypeId × V)) (k : TypeId)
    (h : k ∉ l.map Prod.fst) : mapGet l k = none := by
  induction l with
  | nil => rfl
  | cons p rest ih =>
    obtain ⟨k', v'⟩ := p
    simp only [List.map_cons, List.mem_cons, not_or] at h
    have hne : ¬ k' = k := fun e => h.1 e.symm
    simp [mapGet, hne, ih h.2]

/-- C6: the state container stores at most one value per type identity —
a second insert under the same key replaces the first (last-write-wins),
`get` returns the stored value after an insert, and `get` is `none` on the
fresh container and whenever the key was never inserted. -/
theorem appstate_last_write_wins {V : Type} (s : AppState V) (k : TypeId) (v1 v2 : V) :
    ((s.withValue k v1).withValue k v2).get k = some v2 ∧
    (s.withValue k v1).get k = some v1 ∧
    (AppState.new V).get k = none ∧
    (∀ t : AppState V, k ∉ t.inner.map Prod.fst → t.get k = none) := by
  refine ⟨mapGet_mapInsert_self _ k v2, mapGet_mapInsert_self _ k v1, rfl, ?_⟩
  intro t ht
  exact mapGet_eq_none_of_not_mem t.inner k ht

/-- Witness for C6 at a concrete key and values. -/
theorem appstate_last_write_wins_witness :
    (((AppState.new Nat).withValue 7 1).withValue 7 2).get 7 = some 2 ∧
    ((AppState.new Nat).withValue 7 1).get 7 = some 1 ∧
    (AppState.new Nat).get 7 = none ∧
    (∀ t : AppState Nat, 7 ∉ t.inner.map Prod.fst → t.get 7 = none) :=
  appstate_last_write_wins (AppState.new Nat) 7 1 2

/-! ## CORS middleware (`middleware/cors.rs`)

Headers are modelled as name/value string pairs; names are lower-case as
normalized by the `http` crate.  Responses carry a status code and a
header list; bodies are irrelevant to the claims and omitted. -/

def hACAO : String := "access-control-allow-origin"

def hACAM : String := "access-control-allow-methods"

def hACAH : String := "access-control-allow-headers"

def hVary : String := "vary"

def hOrigin : String := "origin"

/-- `Method::as_str` for the methods the CORS config uses. -/
def HttpMethod.asStr : HttpMethod → String
  | .GET => "GET"
  | .POST => "POST"
  | .PUT => "PUT"
  | .PATCH => "PATCH"
  | .DELETE => "DELETE"
  | .OPTIONS => "OPTIONS"

/-- `AllowedOrigins` from `cors.rs`. -/
inductive AllowedOrigins
  | any
  | exact (origins : List String)
  deriving DecidableEq, Repr

/-- `AllowedMethods` from `cors.rs`. -/
inductive AllowedMethods
  | any
  | list (methods : List HttpMethod)
  deriving DecidableEq, Repr

/-- `AllowedHeaders` from `cors.rs`. -/
inductive AllowedHeaders
  | any
  | list (headers : List String)
  deriving DecidableEq, Repr

/-- `CorsConfig` from `cors.rs`. -/
structure CorsConfig where
  allowed_origins : AllowedOrigins
  allowed_methods : AllowedMethods
  allowed_headers : AllowedHeaders
  deriving DecidableEq, Repr

/-- `CorsConfig::permissive` from `cors.rs`. -/
def CorsConfig.permissive : CorsConfig := ⟨.any, .any, .any⟩

/-- `CorsConfig::with_origins` from `cors.rs`. -/
def CorsConfig.with_origins (origins : List String) : CorsConfig :=
  ⟨.exact origins,
   .list [.GET, .POST, .PUT, .PATCH, .DELETE, .OPTIONS],
   .list ["accept", "authorization"]⟩

/-- An HTTP request as the middleware sees it: a method and headers. -/
structure HRequest where
  method : HttpMethod
  headers : List (String × String)

/-- An HTTP response: a status code and headers (the body is irrelevant
to the CORS claims). -/
structure HResponse where
  status : Nat
  headers : List (String × String)
  deriving DecidableEq, Repr

/-- `HeaderMap::insert`: the new pair is stored and any previous values
under the same name are removed (modelled up to header order). -/
def headerInsert (hs : List (String × String)) (nm v : String) : List (String × String) :=
  hs.filter (fun p => decide (p.1 ≠ nm)) ++ [(nm, v)]

namespace CorsMiddleware

/-- `CorsMiddleware::preflight_response` from `cors.rs`: a 204 No Content
response; `access-control-allow-origin` is set to `*` under
`AllowedOrigins::Any`, and under `Exact` only when the request origin
equals one of the configured origins; allow-methods, allow-headers and
`Vary: Origin` are always set. -/
def preflight_response (cfg : CorsConfig) (origin : Option String) : HResponse :=
  let originHeaders : List (String × String) :=
    match cfg.allowed_origins with
    | .any => [(hACAO, "*")]
    | .exact origins =>
      match origin with
      | some reqOrigin =>
        if origins.contains reqOrigin then [(hACAO, reqOrigin)] else []
      | none => []
  let methodsValue : String :=
    match cfg.allowed_methods with
    | .any => "*"
    | .list ms => String.intercalate ", " (ms.map HttpMethod.asStr)
  let headersValue : String :=
    match cfg.allowed_headers with
    | .any => "*"
    | .list names => String.intercalate ", " names
  ⟨204, originHeaders ++ [(hACAM, methodsValue), (hACAH, headersValue), (hVary, "Origin")]⟩

/-- `CorsMiddleware::add_cors_headers` from `cors.rs`: inserts
`access-control-allow-origin` (`*` under `Any`; the request origin under
`Exact` when it is configured) into the response headers, then inserts
`Vary: Origin`. -/
def add_cors_headers (cfg : CorsConfig) (resp : HResponse) (origin : Option String) : HResponse :=
  let hs : List (String × String) :=
    match cfg.allowed_origins with
    | .any => headerInsert resp.headers hACAO "*"
    | .exact origins =>
      match origin with
      | some reqOrigin =>
        if origins.contains reqOrigin then headerInsert resp.headers hACAO reqOrigin
        else resp.headers
      | none => resp.headers
  ⟨resp.status, headerInsert hs hVary "Origin"⟩

/-- The outcome of one middleware invocation: the produced response and
whether the `next` continuation was invoked. -/
structure MWOutcome where
  response : HResponse
  nextInvoked : Bool
  deriving DecidableEq, Repr

/-- `CorsMiddleware::handle` from `cors.rs`: reads the `Origin` header,
answers `OPTIONS` (preflight) requests immediately without calling `next`,
and otherwise runs `next` and post-processes its response.  The `next`
continuation ("the rest of the chain including the final handler",
`middleware/mod.rs` is not among the provided sources) is a function from
the request to a response, as `Next::run` returns `Response<BoxBody>`. -/
def handle (cfg : CorsConfig) (req : HRequest) (next : HRequest → HResponse) : MWOutcome :=
  let origin := req.headers.lookup hOrigin
  if req.method = HttpMethod.OPTIONS then
    ⟨preflight_response cfg origin, false⟩
  else
    ⟨add_cors_headers cfg (next req) origin, true⟩

end CorsMiddleware

/-- C7: an `OPTIONS` request short-circuits the CORS middleware — `next`
is never invoked and the response is the synthesized 204 preflight
response; and on every request the middleware returns normally, through
exactly one of its two normal branches. -/
theorem cors_preflight_short_circuits (cfg : CorsConfig)
    (hdrs : List (String × String)) (next : HRequest → HResponse) :
    (CorsMiddleware.handle cfg ⟨.OPTIONS, hdrs⟩ next).nextInvoked = false ∧
    (CorsMiddleware.handle cfg ⟨.OPTIONS, hdrs⟩ next).response.status = 204 ∧
    (CorsMiddleware.handle cfg ⟨.OPTIONS, hdrs⟩ next).response =
      CorsMiddleware.preflight_response cfg (hdrs.lookup hOrigin) ∧
    (∀ req : HRequest, (CorsMiddleware.handle cfg req next).response =
       if req.method = HttpMethod.OPTIONS then
         CorsMiddleware.preflight_response cfg (req.headers.lookup hOrigin)
       else
         CorsMiddleware.add_cors_headers cfg (next req) (req.headers.lookup hOrigin)) := by
  refine ⟨rfl, rfl, rfl, ?_⟩
  intro req
  by_cases h : req.method = HttpMethod.OPTIONS <;> simp [CorsMiddleware.handle, h]

/-- The guard of the `Exact` branches of `cors.rs`: the request carries an
`Origin` header whose value equals one of the configured origins. -/
def originAllowed (origins : List String) : Option String → Bool
  | some o => origins.contains o
  | none => false

/-- C9: with `AllowedOrigins::Exact`, when the `Origin` header is absent
or not among the configured origins, neither the preflight response nor
the post-processing adds an `access-control-allow-origin` header, while
`Vary: Origin` is set on every response regardless of origin. -/
theorem cors_exact_origin_filtering (origins : List String)
    (am : AllowedMethods) (ah : AllowedHeaders) (origin : Option String)
    (h : originAllowed origins origin = false) :
    (∀ v, (hACAO, v) ∉
       (CorsMiddleware.preflight_response ⟨.exact origins, am, ah⟩ origin).headers) ∧
    (∀ resp : HResponse, (∀ v, (hACAO, v) ∉ resp.headers) →
       ∀ v, (hACAO, v) ∉
         (CorsMiddleware.add_cors_headers ⟨.exact origins, am, ah⟩ resp origin).headers) ∧
    (∀ og : Option String, (hVary, "Origin") ∈
       (CorsMiddleware.preflight_response ⟨.exact origins, am, ah⟩ og).headers) ∧
    (∀ og : Option String, ∀ resp : HResponse, (hVary, "Origin") ∈
       (CorsMiddleware.add_cors_headers ⟨.exact origins, am, ah⟩ resp og).headers) := by
  refine ⟨?_, ?_, ?_, ?_⟩
  · intro v
    cases origin with
    | none => simp [CorsMiddleware.preflight_response, hACAO, hACAM, hACAH, hVary]
    | some o =>
      simp only [originAllowed] at h
      have hno : o ∉ origins := by simpa using h
      simp [CorsMiddleware.preflight_response, h, hno, hACAO, hACAM, hACAH, hVary]
  · intro resp hresp v
    have hsub : ∀ e ∈ resp.headers.filter (fun p => decide (p.1 ≠ hVary)), e ∈ resp.headers :=
      fun e he => List.mem_of_mem_filter he
    cases origin with
    | none =>
      simp only [CorsMiddleware.add_cors_headers, headerInsert, List.mem_append,
        List.mem_singleton, not_or]
      refine ⟨fun hmem => hresp v (hsub _ hmem), ?_⟩
      simp [hACAO, hVary]
    | some o =>
      simp only [originAllowed] at h
      simp only [CorsMiddleware.add_cors_headers, h, if_false, headerInsert,
        List.mem_append, List.mem_singleton, not_or, Bool.false_eq_true]
      refine ⟨fun hmem => hresp v (hsub _ hmem), ?_⟩
      simp [hACAO, hVary]
  · intro og
    cases og <;>
      simp [CorsMiddleware.preflight_response]
  · intro og resp
    cases og <;>
      simp [CorsMiddleware.add_cors_headers, headerInsert]

/-- Witness for C9: a disallowed concrete origin against a one-entry
allow-list. -/
theorem cors_exact_origin_filtering_witness :
    originAllowed ["https://a.example"] (some "https://b.example") = false ∧
    ((∀ v, (hACAO, v) ∉
        (CorsMiddleware.preflight_response
          ⟨.exact ["https://a.example"], .any, .any⟩ (some "https://b.example")).headers) ∧
     (∀ resp : HResponse, (∀ v, (hACAO, v) ∉ resp.headers) →
        ∀ v, (hACAO, v) ∉
          (CorsMiddleware.add_cors_headers
            ⟨.exact ["https://a.example"], .any, .any⟩ resp (some "https://b.example")).headers) ∧
     (∀ og : Option String, (hVary, "Origin") ∈
        (CorsMiddleware.preflight_response
          ⟨.exact ["https://a.example"], .any, .any⟩ og).headers) ∧
     (∀ og : Option String, ∀ resp : HResponse, (hVary, "Origin") ∈
        (CorsMiddleware.add_cors_headers
          ⟨.exact ["https://a.example"], .any, .any⟩ resp og).headers)) :=
  ⟨by decide,
   cors_exact_origin_filtering ["https://a.example"] .any .any
     (some "https://b.example") (by decide)⟩

/-! ## Shutdown coordinator (`server.rs`)

The shutdown phase of `serve` is embedded as an event trace: hook futures
emit a start and a completion event, log calls and the final `Ok(())`
appear as events.  Hooks are identified by their index in the
`shutdown_hooks` vector. -/

/-- An event of one shutdown hook: its future starts, or completes. -/
inductive HookEvent
  | start (i : Nat)
  | finish (i : Nat)
  deriving DecidableEq, Repr

/-- The trace of `for hook in shutdown_hooks { hook().await; }`
(`server.rs`, `serve`): the loop awaits each hook's future to completion
before moving to the next one. -/
def runHooks : List Nat → List HookEvent
  | [] => []
  | i :: rest => .start i :: .finish i :: runHooks rest

/-- The hook trace for `n` hooks executed in registration order. -/
def hooksTrace (n : Nat) : List HookEvent := runHooks (List.range n)

theorem runHooks_append (l1 l2 : List Nat) :
    runHooks (l1 ++ l2) = runHooks l1 ++ runHooks l2 := by
  induction l1 with
  | nil => rfl
  | cons i rest ih => simp [runHooks, ih]

theorem hooksTrace_succ (n : Nat) :
    hooksTrace (n + 1) = hooksTrace n ++ [.start n, .finish n] := by
  simp [hooksTrace, List.range_succ, runHooks_append, runHooks]

theorem hooksTrace_length (n : Nat) : (hooksTrace n).length = 2 * n := by
  induction n with
  | zero => rfl
  | succ n ih =>
    rw [hooksTrace_succ, List.length_append, ih]
    simp
    omega

theorem start_position : ∀ {n p j : Nat},
    (hooksTrace n)[p]? = some (.start j) → p = 2 * j := by
  intro n
  induction n with
  | zero => intro p j h; simp [hooksTrace, List.range_zero, runHooks] at h
  | succ n ih =>
    intro p j h
    rw [hooksTrace_succ, List.getElem?_append] at h
    by_cases hp : p < (hooksTrace n).length
    · rw [if_pos hp] at h
      exact ih h
    · rw [if_neg hp] at h
      have hlen := hooksTrace_length n
      cases e : p - (hooksTrace n).length with
      | zero =>
        rw [e] at h
        simp at h
        omega
      | succ d =>
        cases d with
        | zero => rw [e] at h; simp at h
        | succ d => rw [e] at h; simp at h

theorem finish_position : ∀ {n p i : Nat},
    (hooksTrace n)[p]? = some (HookEvent.finish i) → p = 2 * i + 1 := by
  intro n
  induction n with
  | zero => intro p i h; simp [hooksTrace, List.range_zero, runHooks] at h
  | succ n ih =>
    intro p i h
    rw [hooksTrace_succ, List.getElem?_append] at h
    by_cases hp : p < (hooksTrace n).length
    · rw [if_pos hp] at h
      exact ih h
    · rw [if_neg hp] at h
      have hlen := hooksTrace_length n
      cases e : p - (hooksTrace n).length with
      | zero => rw [e] at h; simp at h
      | succ d =>
        cases d with
        | zero =>
          rw [e] at h
          simp at h
          omega
        | succ d => rw [e] at h; simp at h

theorem runHooks_count_start (l : List Nat) (i : Nat) :
    (runHooks l).count (.start i) = l.count i := by
  induction l with
  | nil => rfl
  | cons a rest ih =>
    by_cases h : a = i <;>
      simp [runHooks, List.count_cons, ih, h]

theorem runHooks_count_finish (l : List Nat) (i : Nat) :
    (runHooks l).count (.finish i) = l.count i := by
  induction l with
  | nil => rfl
  | cons a rest ih =>
    by_cases h : a = i <;>
      simp [runHooks, List.count_cons, ih, h]

/-- C3: in the post-drain phase all hooks run strictly sequentially in
registration order — every completion of an earlier hook precedes every
start of a later one — and every hook starts and completes exactly once. -/
theorem shutdown_hooks_sequential (n i j : Nat) (hij : i < j) (_hj : j < n) :
    (∀ p q : Nat, (hooksTrace n)[p]? = some (HookEvent.finish i) →
       (hooksTrace n)[q]? = some (HookEvent.start j) → p < q) ∧
    (∀ k, k < n → (hooksTrace n).count (HookEvent.start k) = 1 ∧
       (hooksTrace n).count (HookEvent.finish k) = 1) := by
  constructor
  · intro p q hp hq
    have h1 := finish_position hp
    have h2 := start_position hq
    omega
  · intro k hk
    have hcount : (List.range n).count k = 1 :=
      List.count_eq_one_of_mem (List.nodup_range n) (List.mem_range.mpr hk)
    constructor
    · rw [hooksTrace, runHooks_count_start, hcount]
    · rw [hooksTrace, runHooks_count_finish, hcount]

/-- Witness for C3 at two hooks. -/
theorem shutdown_hooks_sequential_witness :
    (0 : Nat) < 1 ∧ (1 : Nat) < 2 ∧
    ((∀ p q : Nat, (hooksTrace 2)[p]? = some (HookEvent.finish 0) →
        (hooksTrace 2)[q]? = some (HookEvent.start 1) → p < q) ∧
     (∀ k, k < 2 → (hooksTrace 2).count (HookEvent.start k) = 1 ∧
        (hooksTrace 2).count (HookEvent.finish k) = 1)) :=
  ⟨by decide, by decide, shutdown_hooks_sequential 2 0 1 (by decide) (by decide)⟩

/-- An event of the shutdown phase of `serve` (`server.rs`). -/
inductive ServerEvent
  | closeListener
  | logInfo (msg : String)
  | logWarn (msg : String)
  | hookStart (i : Nat)
  | hookFinish (i : Nat)
  | returnOk
  deriving DecidableEq, Repr

/-- The hook loop of `serve`, at the `ServerEvent` level. -/
def runHookEvents : List Nat → List ServerEvent
  | [] => []
  | i :: rest => .hookStart i :: .hookFinish i :: runHookEvents rest

/-- Which of the two raced futures of the draining `tokio::select!`
resolves first: `graceful.shutdown()` (all tracked connections complete)
or `tokio::time::sleep(shutdown_timeout)`. -/
inductive DrainWinner
  | connectionsDrained
  | timeoutElapsed
  deriving DecidableEq, Repr

/-- The drain race and stop phase of `serve` (`server.rs`): the
`tokio::select!` races connection drain against the shutdown timeout; the
winning branch logs (a warning when the timeout wins and the remaining
connections are abandoned), then the hooks run in order and the function
returns `Ok(())` — the final `.returnOk` event. -/
def drainAndStop (w : DrainWinner) (hooks : List Nat) : List ServerEvent :=
  (match w with
   | .connectionsDrained => [.logInfo "All connections drained."]
   | .timeoutElapsed => [.logWarn "Shutdown timeout reached, forcing close."])
  ++ runHookEvents hooks ++ [.logInfo "Server stopped.", .returnOk]

theorem logWarn_not_mem_runHookEvents (hooks : List Nat) (msg : String) :
    ServerEvent.logWarn msg ∉ runHookEvents hooks := by
  induction hooks with
  | nil => simp [runHookEvents]
  | cons i rest ih => simp [runHookEvents, ih]

theorem drainAndStop_getLast (w : DrainWinner) (hooks : List Nat) :
    (drainAndStop w hooks).getLast? = some ServerEvent.returnOk := by
  cases w <;>
    rw [drainAndStop, List.append_assoc, List.getLast?_append_of_ne_nil _ (by simp),
      List.getLast?_append_of_ne_nil _ (by simp)] <;> rfl

/-- C4: the draining state races exactly two outcomes; under either
winner the hook trace is run and the function ends with `Ok` (abandonment
on timeout is not an error), and the warning is observable exactly when
the timeout wins. -/
theorem drain_race_two_outcomes (hooks : List Nat) :
    (∀ w : DrainWinner, w = .connectionsDrained ∨ w = .timeoutElapsed) ∧
    (∀ w, (drainAndStop w hooks).getLast? = some .returnOk) ∧
    (∀ w, ServerEvent.logWarn "Shutdown timeout reached, forcing close." ∈
       drainAndStop w hooks ↔ w = .timeoutElapsed) ∧
    (∀ w, (runHookEvents hooks).IsInfix (drainAndStop w hooks)) := by
  refine ⟨?_, ?_, ?_, ?_⟩
  · intro w; cases w
    · exact Or.inl rfl
    · exact Or.inr rfl
  · intro w
    exact drainAndStop_getLast w hooks
  · intro w
    cases w with
    | connectionsDrained =>
      simp [drainAndStop, logWarn_not_mem_runHookEvents]
    | timeoutElapsed =>
      simp [drainAndStop]
  · intro w
    cases w with
    | connectionsDrained =>
      exact ⟨[.logInfo "All connections drained."],
        [.logInfo "Server stopped.", .returnOk], rfl⟩
    | timeoutElapsed =>
      exact ⟨[.logWarn "Shutdown timeout reached, forcing close."],
        [.logInfo "Server stopped.", .returnOk], rfl⟩

/-- The OS signals multiplexed by the accept loop. -/
inductive OsSignal
  | interrupt
  | terminate
  deriving DecidableEq, Repr

/-- The two signal branches of the accept-loop `tokio::select!`
(`server.rs`): the `ctrl_c` branch and the `sigterm.recv()` branch each
drop the listener, log, and break the loop. -/
def onSignal : OsSignal → List ServerEvent
  | .interrupt =>
    [.closeListener,
     .logInfo "Shutdown signal received, waiting for connections to drain..."]
  | .terminate =>
    [.closeListener,
     .logInfo "Shutdown signal received, waiting for connections to drain..."]

/-- Shutdown behavior from a signal: the signal branch followed by the
drain race and the stop phase. -/
def shutdownFrom (s : OsSignal) (w : DrainWinner) (hooks : List Nat) : List ServerEvent :=
  onSignal s ++ drainAndStop w hooks

/-- C8: the interrupt and terminate branches are behaviorally identical —
same full event trace for any drain outcome and hook list — and in either
case the listener is closed first and the run ends with a clean `Ok`. -/
theorem signal_branches_equivalent (w : DrainWinner) (hooks : List Nat) :
    shutdownFrom .interrupt w hooks = shutdownFrom .terminate w hooks ∧
    (∀ s, (shutdownFrom s w hooks).head? = some .closeListener) ∧
    (∀ s, (shutdownFrom s w hooks).getLast? = some .returnOk) := by
  refine ⟨rfl, ?_, ?_⟩
  · intro s
    cases s <;> rfl
  · intro s
    have hend := drainAndStop_getLast w hooks
    cases s <;>
      rw [shutdownFrom, List.getLast?_append_of_ne_nil] <;>
        first
          | exact hend
          | (cases w <;> simp [drainAndStop])

/-! ## Server entry point (`app.rs`) -/

/-- How a call to `Rapina::listen` can end: a panic (from `expect`), a
normal return, or an I/O error `Result`. -/
inductive ListenOutcome
  | panicked (msg : String)
  | ok
  | ioError (e : String)
  deriving DecidableEq, Repr

/-- `Rapina::listen` from `app.rs`: `addr.parse()` with
`.expect("invalid address")` — a parse failure panics — then
`serve(..., addr).await` whose `Err` (e.g. `TcpListener::bind` failing in
`server.rs`) is returned as the I/O error.  The socket-address parser of
the standard library and the served result are parameters; addresses are
opaque. -/
def listen (parseAddr : String → Option Nat) (serveResult : Nat → Except String Unit)
    (addr : String) : ListenOutcome :=
  match parseAddr addr with
  | none => .panicked "invalid address"
  | some a =>
    match serveResult a with
    | .ok _ => .ok
    | .error e => .ioError e

/-- C10: an address string that does not parse makes `listen` panic with
`invalid address` (never an `Err`), and an I/O error outcome arises only
after a successful parse, from the serve call on the parsed address. -/
theorem listen_panics_on_unparsable_address
    (parseAddr : String → Option Nat) (serveResult : Nat → Except String Unit)
    (addr : String) :
    (parseAddr addr = none → listen parseAddr serveResult addr = .panicked "invalid address") ∧
    (∀ e, listen parseAddr serveResult addr = .ioError e →
       ∃ a, parseAddr addr = some a ∧ serveResult a = .error e) := by
  constructor
  · intro h
    simp [listen, h]
  · intro e h
    cases hp : parseAddr addr with
    | none => simp [listen, hp] at h
    | some a =>
      cases hs : serveResult a with
      | ok u => simp [listen, hp, hs] at h
      | error e2 =>
        simp [listen, hp, hs] at h
        exact ⟨a, rfl, by rw [hs, h]⟩

/-- Witness for C10: a parser that rejects the address makes `listen`
panic, and a failing serve after a successful parse surfaces as `Err`. -/
theorem listen_panics_on_unparsable_address_witness :
    listen (fun _ => none) (fun _ => Except.ok ()) "not-an-address" =
      ListenOutcome.panicked "invalid address" ∧
    (∀ e, listen (fun _ => some 0) (fun _ => Except.error "bind failed") "127.0.0.1:0" =
       ListenOutcome.ioError e →
       ∃ a, (some 0 : Option Nat) = some a ∧
         (Except.error "bind failed" : Except String Unit) = Except.error e) :=
  ⟨(listen_panics_on_unparsable_address (fun _ => none) (fun _ => Except.ok ())
      "not-an-address").1 rfl,
   (listen_panics_on_unparsable_address (fun _ => some 0)
      (fun _ => Except.error "bind failed") "127.0.0.1:0").2⟩

end Rapina
